import Mathlib

/-!
Verification development for `photorganize.py`, a script that organizes photo
files into per-month directories named by capture time.

The Python source is shallowly embedded: pure fragments become Lean functions,
the stateful hash cache becomes explicit state passing, the filesystem
simulacrum (a Python list of paths) becomes a `List` of paths, and raising
code returns `Option`/error-carrying pairs.  Paths are modelled as their
component lists (`FsPath := List String`); `pathlib` name/stem/suffix
operations are reimplemented over the final component.
-/

namespace Photorganize

/-- A naive local datetime, mirroring Python's `datetime.datetime` restricted
to second precision (the only precision this program uses). -/
structure Dt where
  year : Nat
  month : Nat
  day : Nat
  hour : Nat
  minute : Nat
  second : Nat
deriving DecidableEq, Repr

/-- `datetime.datetime.min` (year 1, Jan 1, midnight), used by the planner as
the sentinel value of `last_datetime_formatted`. -/
def Dt.minDt : Dt := ⟨1, 1, 1, 0, 0, 0⟩

/-- Python's comparison of `datetime` objects: lexicographic on the fields.
Embeds the `<` used by `Photo.__lt__`. -/
def Dt.lt (a b : Dt) : Bool :=
  if a.year ≠ b.year then decide (a.year < b.year)
  else if a.month ≠ b.month then decide (a.month < b.month)
  else if a.day ≠ b.day then decide (a.day < b.day)
  else if a.hour ≠ b.hour then decide (a.hour < b.hour)
  else if a.minute ≠ b.minute then decide (a.minute < b.minute)
  else decide (a.second < b.second)

/-- Zero-pad a number to width `w`, as Python's `f"{n:0w}"` format does
(numbers wider than `w` are kept whole). -/
def pad (w n : Nat) : String :=
  let s := toString n
  if s.length < w then String.mk (List.replicate (w - s.length) '0') ++ s else s

/-- `datetime.isoformat(sep=' ', timespec='seconds')`:
`"YYYY-MM-DD HH:MM:SS"` with zero-padded fields. -/
def Dt.isoformat (d : Dt) : String :=
  pad 4 d.year ++ "-" ++ pad 2 d.month ++ "-" ++ pad 2 d.day ++ " " ++
    pad 2 d.hour ++ ":" ++ pad 2 d.minute ++ ":" ++ pad 2 d.second

/-- Value of a list of decimal digit characters. -/
def digitsToNat (cs : List Char) : Nat :=
  cs.foldl (fun n c => n * 10 + (c.toNat - 48)) 0

/-- Decimal digit test (`'0'` to `'9'`), kept on `Nat` code points so that
concrete instances evaluate inside the kernel. -/
def isDigitChar (c : Char) : Bool :=
  48 ≤ c.toNat && c.toNat ≤ 57

/-- Python's `str.split(sep)` for a single-character separator, over the
code-point list of the string (`"".split(c)` gives one empty field). -/
def splitOnChar (sep : Char) : List Char → List (List Char)
  | [] => [[]]
  | c :: rest =>
    let r := splitOnChar sep rest
    if c = sep then [] :: r
    else
      match r with
      | g :: gs => (c :: g) :: gs
      | [] => [[c]]

/-- The Gregorian leap-year rule used by Python's `datetime`. -/
def isLeap (y : Nat) : Bool :=
  (y % 4 == 0 && y % 100 != 0) || y % 400 == 0

/-- Days in a month, as validated by the `datetime` constructor. -/
def daysInMonth (y m : Nat) : Nat :=
  if m = 2 then (if isLeap y then 29 else 28)
  else if m = 4 ∨ m = 6 ∨ m = 9 ∨ m = 11 then 30
  else 31

/-- Field-range validation performed by the `datetime` constructor. -/
def validDt (y mo d h mi s : Nat) : Bool :=
  1 ≤ y && y ≤ 9999 && 1 ≤ mo && mo ≤ 12 && 1 ≤ d && d ≤ daysInMonth y mo &&
    h ≤ 23 && mi ≤ 59 && s ≤ 59

/-- Models `datetime.datetime.fromisoformat` on the 19-character strings this
program feeds it (`stem[:-4]` of a 23-character stem): the extended ISO-8601
format `YYYY-MM-DD?HH:MM:SS`, where `?` is any single separator character
(Python 3.11+ accepts any character in the separator position).  Returns
`none` where Python raises `ValueError`. -/
def parseIso (s : String) : Option Dt :=
  match s.toList with
  | [y1, y2, y3, y4, c1, m1, m2, c2, d1, d2, _sep, h1, h2, c3, mi1, mi2, c4, s1, s2] =>
    if c1 = '-' ∧ c2 = '-' ∧ c3 = ':' ∧ c4 = ':' ∧
        ([y1, y2, y3, y4, m1, m2, d1, d2, h1, h2, mi1, mi2, s1, s2].all isDigitChar) then
      let y := digitsToNat [y1, y2, y3, y4]
      let mo := digitsToNat [m1, m2]
      let d := digitsToNat [d1, d2]
      let h := digitsToNat [h1, h2]
      let mi := digitsToNat [mi1, mi2]
      let sec := digitsToNat [s1, s2]
      if validDt y mo d h mi sec then some ⟨y, mo, d, h, mi, sec⟩ else none
    else none
  | _ => none

/-- A run of 1 or 2 decimal digits, as matched by `strptime`'s `%m`, `%d`,
`%H`, `%M`, `%S` patterns. -/
def parse12 (cs : List Char) : Option Nat :=
  if (cs.length = 1 ∨ cs.length = 2) ∧ cs.all isDigitChar then
    some (digitsToNat cs)
  else none

/-- Exactly 4 decimal digits, as matched by `strptime`'s `%Y`. -/
def parse4 (cs : List Char) : Option Nat :=
  if cs.length = 4 ∧ cs.all isDigitChar then some (digitsToNat cs)
  else none

/-- Models `datetime.datetime.strptime(s, "%Y:%m:%d %H:%M:%S")` (with a single
space between date and time): returns `none` where Python raises
`ValueError`, including the `datetime` constructor's range checks. -/
def parseExifDt (s : String) : Option Dt :=
  match splitOnChar ' ' s.toList with
  | [date, time] =>
    match splitOnChar ':' date, splitOnChar ':' time with
    | [ys, ms, ds], [hs, mis, ss] =>
      match parse4 ys, parse12 ms, parse12 ds, parse12 hs, parse12 mis, parse12 ss with
      | some y, some mo, some d, some h, some mi, some sec =>
        if validDt y mo d h mi sec then some ⟨y, mo, d, h, mi, sec⟩ else none
      | _, _, _, _, _, _ => none
    | _, _ => none
  | _ => none

/-- Provenance of a photo's resolved capture time (`Photo.datetime_src`). -/
inductive Source where
  | mtime
  | filename
  | exif
  | user
deriving DecidableEq, Repr

/-- The inputs to `Photo.__init__`'s capture-time resolution that come from
the outside world: the filename stem, the stat mtime, whether Pillow can
identify the file as an image, and the decoded EXIF tag map. -/
structure FileMeta where
  stem : String
  mtime : Dt
  isImage : Bool
  exif : List (String × String)
deriving DecidableEq, Repr

/-- The EXIF tag consultation of `Photo.__init__` (lines 57-62): try
`DateTimeOriginal`, then `DateTimeDigitized`, then `DateTime`; first present
wins. -/
def exifTagValue (exif : List (String × String)) : Option String :=
  match exif.lookup "DateTimeOriginal" with
  | some v => some v
  | none =>
    match exif.lookup "DateTimeDigitized" with
    | some v => some v
    | none => exif.lookup "DateTime"

/-- Capture-time resolution of `Photo.__init__` (lines 26-74).  Starts from
the mtime fallback, overwrites it with a filename-encoded timestamp when the
23-character stem's first 19 characters (`stem[:-4]`) parse as ISO, then
overwrites that with an EXIF timestamp when the file is identifiable as an
image, one of the three tags is present, and the first present one parses
with `%Y:%m:%d %H:%M:%S`.  Each `return`/caught-exception in the source is a
fall-through here; the function is total ("never raises"). -/
def photoInit (f : FileMeta) : Dt × Source :=
  let st1 : Dt × Source := (f.mtime, Source.mtime)
  let st2 : Dt × Source :=
    if f.stem.toList.length = 23 then
      match parseIso (String.mk (f.stem.toList.take 19)) with
      | some d => (d, Source.filename)
      | none => st1
    else st1
  if f.isImage then
    match exifTagValue f.exif with
    | none => st2
    | some v =>
      match parseExifDt v with
      | some d => (d, Source.exif)
      | none => st2
  else st2

/-- The file's capture time resolves from EXIF metadata: identifiable as an
image, a tag present, and the first present tag's value parses. -/
def exifResolves (f : FileMeta) : Prop :=
  f.isImage = true ∧ ∃ v, exifTagValue f.exif = some v ∧ (parseExifDt v).isSome

/-- The filename stem is exactly 23 characters and its first 19 characters
parse as an ISO-8601 timestamp. -/
def filenameResolves (f : FileMeta) : Prop :=
  f.stem.toList.length = 23 ∧ (parseIso (String.mk (f.stem.toList.take 19))).isSome

instance (f : FileMeta) : Decidable (exifResolves f) := by
  unfold exifResolves
  infer_instance

instance (f : FileMeta) : Decidable (filenameResolves f) := by
  unfold filenameResolves
  infer_instance

/-- C2: capture-time resolution never raises (it is a total function) and
tries sources in strict priority order: the final source is `exif` iff the
file is identifiable as an image, one of the three tags (consulted in order
`DateTimeOriginal`, `DateTimeDigitized`, `DateTime`) is present, and the
first present one parses as `YYYY:MM:DD HH:MM:SS`; otherwise it is
`filename` iff the stem is exactly 23 characters and its first 19 characters
parse as an ISO-8601 timestamp; otherwise it is `mtime`, with the file's
last-modified time as the value. -/
theorem capture_source_priority (f : FileMeta) :
    ((photoInit f).2 = Source.exif ↔ exifResolves f)
    ∧ ((photoInit f).2 = Source.filename ↔ ¬ exifResolves f ∧ filenameResolves f)
    ∧ ((photoInit f).2 = Source.mtime ↔ ¬ exifResolves f ∧ ¬ filenameResolves f)
    ∧ (∀ v d, f.isImage = true → exifTagValue f.exif = some v → parseExifDt v = some d →
        photoInit f = (d, Source.exif))
    ∧ (¬ exifResolves f → filenameResolves f →
        parseIso (String.mk (f.stem.toList.take 19)) = some (photoInit f).1)
    ∧ (¬ exifResolves f → ¬ filenameResolves f → photoInit f = (f.mtime, Source.mtime)) := by
  by_cases hImg : f.isImage = true
  · rcases hV : exifTagValue f.exif with _ | v
    · by_cases hL : f.stem.toList.length = 23
      all_goals rcases hI : parseIso (String.mk (f.stem.toList.take 19)) with _ | d'
      all_goals simp_all [photoInit, exifResolves, filenameResolves]
    · rcases hP : parseExifDt v with _ | d
      all_goals by_cases hL : f.stem.toList.length = 23
      all_goals rcases hI : parseIso (String.mk (f.stem.toList.take 19)) with _ | d'
      all_goals simp_all [photoInit, exifResolves, filenameResolves]
  · by_cases hL : f.stem.toList.length = 23
    all_goals rcases hI : parseIso (String.mk (f.stem.toList.take 19)) with _ | d'
    all_goals simp_all [photoInit, exifResolves, filenameResolves]

/-- Witness for C2 at concrete inputs: an EXIF-bearing image resolves from
metadata, and with metadata failing, a 23-character ISO stem resolves from
the filename. -/
theorem capture_source_priority_witness :
    photoInit ⟨"img00234", ⟨2020, 2, 2, 2, 2, 2⟩, true,
        [("DateTime", "2023:05:01 10:00:00")]⟩ =
      (⟨2023, 5, 1, 10, 0, 0⟩, Source.exif)
    ∧ parseIso (String.mk (("2024-01-02 03:04:05 007" : String).toList.take 19)) =
        some (photoInit ⟨"2024-01-02 03:04:05 007", ⟨2020, 2, 2, 2, 2, 2⟩, false, []⟩).1 := by
  constructor
  · exact (capture_source_priority _).2.2.2.1 "2023:05:01 10:00:00" ⟨2023, 5, 1, 10, 0, 0⟩
      (by decide) (by decide) (by decide)
  · exact (capture_source_priority
      ⟨"2024-01-02 03:04:05 007", ⟨2020, 2, 2, 2, 2, 2⟩, false, []⟩).2.2.2.2.1
      (by decide) (by decide)

/-- A filesystem path, modelled as the component list of an absolute path:
`/a/b/x.jpg` is `["a", "b", "x.jpg"]`.  `len(path.parents)` of such a path is
its component count, and `path.name` is its last component. -/
abbrev FsPath := List String

/-- `path.name`: the final component. -/
def pathName (p : FsPath) : String := p.getLastD ""

/-- `len(path.parents)` for an absolute path: the number of components. -/
def pathDepth (p : FsPath) : Nat := p.length

/-- Python's string `<`: lexicographic comparison of code points, over the
code-point lists. -/
def strLtB : List Char → List Char → Bool
  | [], [] => false
  | [], _ :: _ => true
  | _ :: _, [] => false
  | c :: cs, d :: ds =>
    if c < d then true
    else if d < c then false
    else strLtB cs ds

/-- Python's string `<` on `String`. -/
def strLt (a b : String) : Bool := strLtB a.toList b.toList

/-- The planner's view of a `Photo` object: its resolved path, capture time
with provenance, and the size and byte content used for duplicate checks. -/
structure Photo where
  path : FsPath
  dt : Dt
  src : Source
  size : Nat
  content : List Nat
deriving DecidableEq, Repr

/-- `Photo.__lt__` (lines 76-87): capture time ascending, then directory
depth descending, then filename ascending. -/
def Photo.lt (a b : Photo) : Bool :=
  if a.dt ≠ b.dt then Dt.lt a.dt b.dt
  else if pathDepth a.path ≠ pathDepth b.path then decide (pathDepth b.path < pathDepth a.path)
  else strLt (pathName a.path) (pathName b.path)

/-- The triple of keys `Photo.__lt__` actually inspects. -/
def sortKey (a : Photo) : Dt × Nat × String :=
  (a.dt, pathDepth a.path, pathName a.path)

theorem Dt.dtLt_iff_lex (a b : Dt) : Dt.lt a b = true ↔
    a.year < b.year ∨ (a.year = b.year ∧
      (a.month < b.month ∨ (a.month = b.month ∧
        (a.day < b.day ∨ (a.day = b.day ∧
          (a.hour < b.hour ∨ (a.hour = b.hour ∧
            (a.minute < b.minute ∨ (a.minute = b.minute ∧
              a.second < b.second))))))))) := by
  unfold Dt.lt
  split_ifs <;> (simp only [decide_eq_true_eq]; omega)

theorem Dt.lt_trans' (a b c : Dt) (h1 : Dt.lt a b = true) (h2 : Dt.lt b c = true) :
    Dt.lt a c = true := by
  rw [Dt.dtLt_iff_lex] at h1 h2 ⊢
  omega

theorem Dt.lt_asymm' (a b : Dt) (h : Dt.lt a b = true) : Dt.lt b a = false := by
  cases hba : Dt.lt b a
  · rfl
  · rw [Dt.dtLt_iff_lex] at h hba
    omega

theorem Dt.lt_total' (a b : Dt) (h : a ≠ b) : Dt.lt a b = true ∨ Dt.lt b a = true := by
  obtain ⟨y1, mo1, d1, hh1, mi1, s1⟩ := a
  obtain ⟨y2, mo2, d2, hh2, mi2, s2⟩ := b
  simp only [Dt.dtLt_iff_lex, ne_eq, Dt.mk.injEq] at h ⊢
  by_cases e1 : y1 = y2
  · by_cases e2 : mo1 = mo2
    · by_cases e3 : d1 = d2
      · by_cases e4 : hh1 = hh2
        · by_cases e5 : mi1 = mi2
          · subst e1
            subst e2
            subst e3
            subst e4
            subst e5
            simp only [true_and] at h
            omega
          · omega
        · omega
      · omega
    · omega
  · omega

theorem strLtB_irrefl : ∀ cs, strLtB cs cs = false
  | [] => rfl
  | c :: cs => by simp [strLtB, strLtB_irrefl cs]

theorem strLtB_trans : ∀ as' bs cs, strLtB as' bs = true → strLtB bs cs = true →
    strLtB as' cs = true
  | [], bs, cs, h1, h2 => by
    cases bs <;> cases cs <;> simp_all [strLtB]
  | a :: as', [], cs, h1, _ => by simp [strLtB] at h1
  | a :: as', b :: bs, [], _, h2 => by simp [strLtB] at h2
  | a :: as', b :: bs, c :: cs, h1, h2 => by
    simp only [strLtB] at h1 h2 ⊢
    by_cases hab : a < b
    · by_cases hbc : b < c
      · simp [lt_trans hab hbc]
      · by_cases hcb : c < b
        · simp_all
        · have hbceq : b = c := le_antisymm (not_lt.mp hcb) (not_lt.mp hbc)
          subst hbceq
          simp [hab]
    · by_cases hba : b < a
      · simp_all
      · have habeq : a = b := le_antisymm (not_lt.mp hba) (not_lt.mp hab)
        subst habeq
        by_cases hac : a < c
        · simp [hac]
        · by_cases hca : c < a
          · simp_all
          · simp_all [strLtB_trans as' bs cs]

theorem strLtB_asymm : ∀ as' bs, strLtB as' bs = true → strLtB bs as' = false
  | [], bs, h => by cases bs <;> simp_all [strLtB]
  | a :: as', [], h => by simp [strLtB] at h
  | a :: as', b :: bs, h => by
    simp only [strLtB] at h ⊢
    by_cases hab : a < b
    · simp [hab, asymm hab]
    · by_cases hba : b < a
      · simp_all
      · simp_all [strLtB_asymm as' bs]

theorem strLtB_total : ∀ as' bs, as' ≠ bs → strLtB as' bs = true ∨ strLtB bs as' = true
  | [], [], h => absurd rfl h
  | [], _ :: _, _ => Or.inl rfl
  | _ :: _, [], _ => Or.inr rfl
  | a :: as', b :: bs, h => by
    simp only [strLtB]
    by_cases hab : a < b
    · simp [hab]
    · by_cases hba : b < a
      · simp [hba]
      · have habeq : a = b := le_antisymm (not_lt.mp hba) (not_lt.mp hab)
        subst habeq
        have hne : as' ≠ bs := by
          intro hc
          exact h (by rw [hc])
        rcases strLtB_total as' bs hne with ht | ht <;> simp_all

theorem Photo.photoLt_iff_keys (a b : Photo) : Photo.lt a b = true ↔
    (a.dt ≠ b.dt ∧ Dt.lt a.dt b.dt = true) ∨
    (a.dt = b.dt ∧ pathDepth a.path ≠ pathDepth b.path ∧
      pathDepth b.path < pathDepth a.path) ∨
    (a.dt = b.dt ∧ pathDepth a.path = pathDepth b.path ∧
      strLt (pathName a.path) (pathName b.path) = true) := by
  unfold Photo.lt
  split_ifs <;> simp_all

theorem Dt.lt_irrefl' (a : Dt) : Dt.lt a a = false := by
  cases h : Dt.lt a a
  · rfl
  · rw [Dt.dtLt_iff_lex] at h
    omega

theorem Dt.lt_ne (a b : Dt) (h : Dt.lt a b = true) : a ≠ b := by
  intro he
  rw [he, Dt.lt_irrefl'] at h
  exact Bool.false_ne_true h

theorem strLt_trans (a b c : String) (h1 : strLt a b = true) (h2 : strLt b c = true) :
    strLt a c = true :=
  strLtB_trans _ _ _ h1 h2

theorem strLt_asymm (a b : String) (h : strLt a b = true) : strLt b a = false :=
  strLtB_asymm _ _ h

theorem strLt_irrefl (a : String) : strLt a a = false :=
  strLtB_irrefl _

theorem strLt_total (a b : String) (h : a ≠ b) : strLt a b = true ∨ strLt b a = true :=
  strLtB_total _ _ (fun hc => h (String.toList_inj.mp hc))

/-- C5 counterexample: two distinct records with the same capture time, the
same directory depth and the same filename, but different parent
directories, are not comparable in either direction — the claim that any two
distinct records are comparable is false. -/
theorem photo_order_not_total :
    (⟨["a", "x.jpg"], ⟨2023, 5, 1, 10, 0, 0⟩, Source.exif, 1, [0]⟩ : Photo) ≠
      (⟨["b", "x.jpg"], ⟨2023, 5, 1, 10, 0, 0⟩, Source.exif, 1, [0]⟩ : Photo)
    ∧ Photo.lt ⟨["a", "x.jpg"], ⟨2023, 5, 1, 10, 0, 0⟩, Source.exif, 1, [0]⟩
        ⟨["b", "x.jpg"], ⟨2023, 5, 1, 10, 0, 0⟩, Source.exif, 1, [0]⟩ = false
    ∧ Photo.lt ⟨["b", "x.jpg"], ⟨2023, 5, 1, 10, 0, 0⟩, Source.exif, 1, [0]⟩
        ⟨["a", "x.jpg"], ⟨2023, 5, 1, 10, 0, 0⟩, Source.exif, 1, [0]⟩ = false := by
  refine ⟨by decide, by decide, by decide⟩

/-- C5 amended: the ordering on Photo Records (capture time ascending, then
directory depth descending, then filename ascending) is a strict weak order:
irreflexive, transitive and asymmetric, and two records are comparable
exactly when they differ in at least one of the three compared keys; records
agreeing on capture time, depth and filename (but, say, lying in different
parent directories) are incomparable. -/
theorem photo_order_strict_weak :
    (∀ a : Photo, Photo.lt a a = false)
    ∧ (∀ a b c : Photo, Photo.lt a b = true → Photo.lt b c = true → Photo.lt a c = true)
    ∧ (∀ a b : Photo, Photo.lt a b = true → Photo.lt b a = false)
    ∧ (∀ a b : Photo, sortKey a ≠ sortKey b → Photo.lt a b = true ∨ Photo.lt b a = true)
    ∧ (∀ a b : Photo, sortKey a = sortKey b → Photo.lt a b = false) := by
  refine ⟨?_, ?_, ?_, ?_, ?_⟩
  · intro a
    unfold Photo.lt
    simp [strLt_irrefl]
  · intro a b c h1 h2
    rw [Photo.photoLt_iff_keys] at h1 h2 ⊢
    rcases h1 with ⟨hne1, hlt1⟩ | ⟨heq1, hdne1, hdlt1⟩ | ⟨heq1, hdeq1, hnlt1⟩ <;>
      rcases h2 with ⟨hne2, hlt2⟩ | ⟨heq2, hdne2, hdlt2⟩ | ⟨heq2, hdeq2, hnlt2⟩
    · have hac := Dt.lt_trans' _ _ _ hlt1 hlt2
      exact Or.inl ⟨Dt.lt_ne _ _ hac, hac⟩
    · rw [heq2] at hne1 hlt1
      exact Or.inl ⟨hne1, hlt1⟩
    · rw [heq2] at hne1 hlt1
      exact Or.inl ⟨hne1, hlt1⟩
    · rw [← heq1] at hne2 hlt2
      exact Or.inl ⟨hne2, hlt2⟩
    · exact Or.inr (Or.inl ⟨heq1.trans heq2, by omega, by omega⟩)
    · rw [hdeq2] at hdne1 hdlt1
      exact Or.inr (Or.inl ⟨heq1.trans heq2, hdne1, hdlt1⟩)
    · rw [← heq1] at hne2 hlt2
      exact Or.inl ⟨hne2, hlt2⟩
    · rw [← hdeq1] at hdne2 hdlt2
      exact Or.inr (Or.inl ⟨heq1.trans heq2, hdne2, hdlt2⟩)
    · exact Or.inr (Or.inr ⟨heq1.trans heq2, hdeq1.trans hdeq2,
        strLt_trans _ _ _ hnlt1 hnlt2⟩)
  · intro a b h
    cases hba : Photo.lt b a
    · rfl
    · rw [Photo.photoLt_iff_keys] at h hba
      rcases h with ⟨hne1, hlt1⟩ | ⟨heq1, hdne1, hdlt1⟩ | ⟨heq1, hdeq1, hnlt1⟩ <;>
        rcases hba with ⟨hne2, hlt2⟩ | ⟨heq2, hdne2, hdlt2⟩ | ⟨heq2, hdeq2, hnlt2⟩
      · rw [Dt.lt_asymm' _ _ hlt1] at hlt2
        exact (Bool.false_ne_true hlt2).elim
      · exact absurd heq2.symm hne1
      · exact absurd heq2.symm hne1
      · exact absurd heq1.symm hne2
      · omega
      · omega
      · exact absurd heq1.symm hne2
      · omega
      · rw [strLt_asymm _ _ hnlt1] at hnlt2
        exact (Bool.false_ne_true hnlt2).elim
  · intro a b h
    simp only [sortKey, ne_eq, Prod.mk.injEq, not_and] at h
    rw [Photo.photoLt_iff_keys, Photo.photoLt_iff_keys]
    by_cases hdt : a.dt = b.dt
    · by_cases hdep : pathDepth a.path = pathDepth b.path
      · have hname : pathName a.path ≠ pathName b.path := by
          intro hc
          exact h hdt hdep hc
        rcases strLt_total _ _ hname with hs | hs
        · exact Or.inl (Or.inr (Or.inr ⟨hdt, hdep, hs⟩))
        · exact Or.inr (Or.inr (Or.inr ⟨hdt.symm, hdep.symm, hs⟩))
      · rcases Nat.lt_or_ge (pathDepth a.path) (pathDepth b.path) with hl | hl
        · exact Or.inr (Or.inr (Or.inl ⟨hdt.symm, by omega, by omega⟩))
        · exact Or.inl (Or.inr (Or.inl ⟨hdt, by omega, by omega⟩))
    · rcases Dt.lt_total' _ _ hdt with hl | hl
      · exact Or.inl (Or.inl ⟨hdt, hl⟩)
      · exact Or.inr (Or.inl ⟨Ne.symm hdt, hl⟩)
  · intro a b h
    simp only [sortKey, Prod.mk.injEq] at h
    obtain ⟨h1, h2, h3⟩ := h
    unfold Photo.lt
    rw [h1, h2, h3]
    simp [strLt_irrefl]

/-- Witness for C5's amended theorem at concrete records: transitivity and
comparability applied to explicit photos. -/
theorem photo_order_strict_weak_witness :
    Photo.lt ⟨["a.jpg"], ⟨2023, 1, 1, 0, 0, 0⟩, Source.exif, 1, []⟩
        ⟨["c.jpg"], ⟨2023, 1, 3, 0, 0, 0⟩, Source.exif, 1, []⟩ = true
    ∧ (Photo.lt ⟨["a.jpg"], ⟨2023, 1, 1, 0, 0, 0⟩, Source.exif, 1, []⟩
          ⟨["b.jpg"], ⟨2023, 1, 2, 0, 0, 0⟩, Source.exif, 1, []⟩ = true
        ∨ Photo.lt ⟨["b.jpg"], ⟨2023, 1, 2, 0, 0, 0⟩, Source.exif, 1, []⟩
            ⟨["a.jpg"], ⟨2023, 1, 1, 0, 0, 0⟩, Source.exif, 1, []⟩ = true) := by
  constructor
  · exact photo_order_strict_weak.2.1
      ⟨["a.jpg"], ⟨2023, 1, 1, 0, 0, 0⟩, Source.exif, 1, []⟩
      ⟨["b.jpg"], ⟨2023, 1, 2, 0, 0, 0⟩, Source.exif, 1, []⟩
      ⟨["c.jpg"], ⟨2023, 1, 3, 0, 0, 0⟩, Source.exif, 1, []⟩
      (by decide) (by decide)
  · exact photo_order_strict_weak.2.2.2.1
      ⟨["a.jpg"], ⟨2023, 1, 1, 0, 0, 0⟩, Source.exif, 1, []⟩
      ⟨["b.jpg"], ⟨2023, 1, 2, 0, 0, 0⟩, Source.exif, 1, []⟩
      (by decide)

/-- The mutable hash state of one `Photo` object: the lazily-populated
`hashes` map from algorithm name to hex digest, plus a counter of full
file-content reads performed (each `open`/`read` in `get_hash` is one). -/
structure PhotoCache where
  hashes : List (String × String)
  reads : Nat
deriving DecidableEq, Repr

/-- `Photo.get_hash` (lines 89-96): look the algorithm up in the cache; on a
miss, read the file content once (modelled by applying the abstract digest
function `hashFn` to the record's bytes and incrementing the read counter)
and store the digest under the algorithm's name. -/
def get_hash (hashFn : String → List Nat → String) (p : Photo) (alg : String)
    (c : PhotoCache) : String × PhotoCache :=
  match c.hashes.lookup alg with
  | some h => (h, c)
  | none =>
    let h := hashFn alg p.content
    (h, ⟨(alg, h) :: c.hashes, c.reads + 1⟩)

/-- `Photo.is_duplicate_of` (lines 99-101): `(self.size == other.size) and
(hash == hash)`, with Python's `and` short-circuiting, threading both
records' hash caches. -/
def is_duplicate_of (hashFn : String → List Nat → String) (a b : Photo) (alg : String)
    (ca cb : PhotoCache) : Bool × PhotoCache × PhotoCache :=
  if a.size = b.size then
    let r1 := get_hash hashFn a alg ca
    let r2 := get_hash hashFn b alg cb
    (decide (r1.1 = r2.1), r1.2, r2.2)
  else (false, ca, cb)

/-- C7: `is_duplicate(a, b, algorithm)` is true iff the sizes are equal and
the digests under that algorithm are equal; the size comparison is evaluated
first and short-circuits, so for different sizes no digest of either record
is computed (both hash caches, including their read counters, are returned
untouched). -/
theorem is_duplicate_iff (f : String → List Nat → String) (a b : Photo) (alg : String)
    (ca cb : PhotoCache) :
    ((is_duplicate_of f a b alg ca cb).1 = true ↔
      a.size = b.size ∧ (get_hash f a alg ca).1 = (get_hash f b alg cb).1)
    ∧ (a.size ≠ b.size → is_duplicate_of f a b alg ca cb = (false, ca, cb)) := by
  unfold is_duplicate_of
  by_cases h : a.size = b.size <;> simp [h]

/-- Witness for C7 at concrete records: a size mismatch yields `false` with
both caches untouched, and equal size with equal content digests yields
`true`. -/
theorem is_duplicate_iff_witness :
    is_duplicate_of (fun _ c => toString (c.foldl (· + ·) 0))
        ⟨["a.jpg"], ⟨2023, 1, 1, 0, 0, 0⟩, Source.exif, 1, [7]⟩
        ⟨["b.jpg"], ⟨2023, 1, 1, 0, 0, 0⟩, Source.exif, 2, [7, 7]⟩ "sha256"
        ⟨[], 0⟩ ⟨[], 0⟩ = (false, ⟨[], 0⟩, ⟨[], 0⟩)
    ∧ (is_duplicate_of (fun _ c => toString (c.foldl (· + ·) 0))
        ⟨["a.jpg"], ⟨2023, 1, 1, 0, 0, 0⟩, Source.exif, 1, [7]⟩
        ⟨["b.jpg"], ⟨2023, 1, 1, 0, 0, 0⟩, Source.exif, 1, [7]⟩ "sha256"
        ⟨[], 0⟩ ⟨[], 0⟩).1 = true := by
  constructor
  · exact (is_duplicate_iff _ _ _ _ _ _).2 (by decide)
  · exact (is_duplicate_iff _ _ _ _ _ _).1.mpr ⟨by decide, by decide⟩

/-- C8: per-record digest caching.  A `get_hash` call with a cached algorithm
returns the cached digest and leaves the state (including the read counter)
unchanged; a call on a cache miss reads the file exactly once and stores the
digest under the algorithm name; and any immediately repeated call with the
same algorithm returns the same digest without touching the state again, so
the content is read at most once per algorithm. -/
theorem get_hash_caches (f : String → List Nat → String) (p : Photo) (alg : String)
    (c : PhotoCache) :
    (∀ h0, c.hashes.lookup alg = some h0 → get_hash f p alg c = (h0, c))
    ∧ (c.hashes.lookup alg = none →
        get_hash f p alg c =
          (f alg p.content, ⟨(alg, f alg p.content) :: c.hashes, c.reads + 1⟩))
    ∧ get_hash f p alg (get_hash f p alg c).2 =
        ((get_hash f p alg c).1, (get_hash f p alg c).2)
    ∧ (get_hash f p alg c).2.reads ≤ c.reads + 1 := by
  unfold get_hash
  cases hl : c.hashes.lookup alg <;> simp [hl, List.lookup]

/-- Witness for C8 at a concrete record and cache: a hit returns the cached
digest unchanged, and a miss stores the digest and counts one read. -/
theorem get_hash_caches_witness :
    get_hash (fun _ c => toString (c.foldl (· + ·) 0))
        ⟨["a.jpg"], ⟨2023, 1, 1, 0, 0, 0⟩, Source.exif, 1, [7]⟩ "sha256"
        ⟨[("sha256", "cafe")], 3⟩ = ("cafe", ⟨[("sha256", "cafe")], 3⟩)
    ∧ get_hash (fun _ c => toString (c.foldl (· + ·) 0))
        ⟨["a.jpg"], ⟨2023, 1, 1, 0, 0, 0⟩, Source.exif, 1, [7]⟩ "md5"
        ⟨[("sha256", "cafe")], 3⟩ = ("7", ⟨[("md5", "7"), ("sha256", "cafe")], 4⟩) := by
  constructor
  · exact (get_hash_caches _ _ _ _).1 "cafe" (by decide)
  · exact (get_hash_caches _ _ _ _).2.1 (by decide)

/-- `pathlib.PurePath.suffixes` of a path's final component: empty when the
name ends in a dot; otherwise the dot-prefixed fields after the first field
of the name stripped of leading dots. -/
def pathSuffixes (name : String) : List String :=
  if name.toList.getLast? = some '.' then []
  else
    ((splitOnChar '.' (name.toList.dropWhile (fun c => c = '.'))).tail).map
      (fun g => String.mk ('.' :: g))

/-- The three mutation command variants (`MakeDirectory`, `Move`, `Remove`). -/
inductive Command where
  | makeDirectory (directory : FsPath)
  | move (source : FsPath) (dest : FsPath)
  | remove (target : FsPath)
deriving DecidableEq, Repr

/-- The exceptions a command's `simulate` method can raise
(`FileExistsError`, `FileNotFoundError`, `IsADirectoryError`). -/
inductive SimError where
  | fileExists
  | fileNotFound
  | isADirectory
deriving DecidableEq, Repr

/-- One command's `simulate(simulacrum)` (lines 124-127, 144-150, 166-173),
following the source's statement order: each raise is an early return
carrying the simulacrum as it stands at that moment, and the mutations
(`append` to the end, `remove` of the first occurrence) happen only after
every membership check has passed. -/
def simStep : Command → List FsPath → Option SimError × List FsPath
  | Command.makeDirectory d, sim =>
    if d ∈ sim then (some SimError.fileExists, sim)
    else (none, sim ++ [d])
  | Command.move src dst, sim =>
    if src ∉ sim then (some SimError.fileNotFound, sim)
    else if dst ∈ sim then (some SimError.fileExists, sim)
    else (none, (sim ++ [dst]).erase src)
  | Command.remove tgt, sim =>
    if tgt ∉ sim then (some SimError.fileNotFound, sim)
    else if pathSuffixes (pathName tgt) = [] then (some SimError.isADirectory, sim)
    else (none, sim.erase tgt)

/-- `Organizer.simulate` (lines 418-425): run every command's simulated
effect in order against the simulacrum; the first raise propagates and
abandons the rest of the list. -/
def simulateCmds : List Command → List FsPath → Except SimError (List FsPath)
  | [], sim => Except.ok sim
  | c :: cs, sim =>
    match simStep c sim with
    | (some e, _) => Except.error e
    | (none, sim') => simulateCmds cs sim'

/-- Observable outcome of `Organizer.run`. -/
inductive RunOutcome where
  | nothingToDo
  | simFailed (e : SimError)
  | simulatedOnly
  | executed (cmds : List Command)
deriving DecidableEq, Repr

/-- `Organizer.run` (lines 444-454), taking the prepared command list and the
simulacrum seeded from the pre-run filesystem walk: an empty plan does
nothing; otherwise the whole plan is simulated, a simulation error aborts the
run, and only after full simulation success are the commands handed to
`Organizer.execute` (modelled abstractly by recording the submitted list). -/
def runModel (cmds : List Command) (sim0 : List FsPath) (simulateOnly : Bool) :
    RunOutcome :=
  if cmds = [] then RunOutcome.nothingToDo
  else
    match simulateCmds cmds sim0 with
    | Except.error e => RunOutcome.simFailed e
    | Except.ok _ => if simulateOnly then RunOutcome.simulatedOnly
                     else RunOutcome.executed cmds

theorem simulateCmds_append_ok (pre : List Command) :
    ∀ sim0 sim1 rest, simulateCmds pre sim0 = Except.ok sim1 →
      simulateCmds (pre ++ rest) sim0 = simulateCmds rest sim1 := by
  induction pre with
  | nil =>
    intro sim0 sim1 rest h
    simp [simulateCmds] at h
    simp [h]
  | cons c cs ih =>
    intro sim0 sim1 rest h
    simp only [simulateCmds, List.cons_append] at h ⊢
    cases hs : simStep c sim0 with
    | mk e sim' =>
      cases e with
      | some e0 => simp [hs] at h
      | none =>
        simp only [hs] at h ⊢
        exact ih _ _ _ h

/-- C4: simulated command semantics on the in-memory path collection.
`CreateDirectory` fails iff the path is already present, otherwise adds it;
`MoveFile` fails iff the source is absent or the destination present,
otherwise removes the source and adds the destination; `DeleteFile` fails
iff the target is absent or its name has no file-extension-like suffix,
otherwise removes it.  (The success-state membership descriptions are under
the no-duplicates invariant that the real simulacrum, a recursive directory
walk, always satisfies.) -/
theorem sim_command_semantics (sim : List FsPath) (p src dst tgt : FsPath) :
    ((simStep (Command.makeDirectory p) sim).1 ≠ none ↔ p ∈ sim)
    ∧ (p ∉ sim → (simStep (Command.makeDirectory p) sim).2 = sim ++ [p])
    ∧ ((simStep (Command.move src dst) sim).1 ≠ none ↔ src ∉ sim ∨ dst ∈ sim)
    ∧ (sim.Nodup → src ∈ sim → dst ∉ sim → ∀ x : FsPath,
        (x ∈ (simStep (Command.move src dst) sim).2 ↔ (x ∈ sim ∧ x ≠ src) ∨ x = dst))
    ∧ ((simStep (Command.remove tgt) sim).1 ≠ none ↔
        tgt ∉ sim ∨ pathSuffixes (pathName tgt) = [])
    ∧ (sim.Nodup → tgt ∈ sim → pathSuffixes (pathName tgt) ≠ [] → ∀ x : FsPath,
        (x ∈ (simStep (Command.remove tgt) sim).2 ↔ x ∈ sim ∧ x ≠ tgt)) := by
  refine ⟨?_, ?_, ?_, ?_, ?_, ?_⟩
  · simp only [simStep]
    split_ifs with h <;> simp [h]
  · intro h
    simp only [simStep]
    rw [if_neg h]
  · simp only [simStep]
    split_ifs with h1 h2 <;> simp_all
  · intro hnd hsrc hdst x
    have hnd2 : (sim ++ [dst]).Nodup := by
      rw [List.nodup_append]
      refine ⟨hnd, List.nodup_singleton dst, ?_⟩
      intro a ha hb
      rw [List.mem_singleton] at hb
      subst hb
      exact hdst ha
    simp only [simStep]
    rw [if_neg (not_not_intro hsrc), if_neg hdst]
    rw [List.Nodup.mem_erase_iff hnd2]
    simp only [List.mem_append, List.mem_singleton]
    constructor
    · rintro ⟨hne, hx | hx⟩
      · exact Or.inl ⟨hx, hne⟩
      · exact Or.inr hx
    · rintro (⟨hx, hne⟩ | hx)
      · exact ⟨hne, Or.inl hx⟩
      · subst hx
        refine ⟨?_, Or.inr rfl⟩
        intro hc
        apply hdst
        rw [hc]
        exact hsrc
  · simp only [simStep]
    split_ifs with h1 h2 <;> simp_all
  · intro hnd htgt hsuf x
    simp only [simStep]
    rw [if_neg (not_not_intro htgt), if_neg hsuf]
    rw [List.Nodup.mem_erase_iff hnd]
    exact ⟨fun h => ⟨h.2, h.1⟩, fun h => ⟨h.2, h.1⟩⟩

/-- Witness for C4 at a concrete simulacrum: a move of `/a/x.jpg` onto a free
destination relocates exactly that path, and a delete of a suffixed present
target removes exactly it. -/
theorem sim_command_semantics_witness :
    (["b", "y.jpg"] ∈ (simStep (Command.move ["a", "x.jpg"] ["b", "y.jpg"])
        [["a", "x.jpg"], ["b"]]).2
      ∧ ["a", "x.jpg"] ∉ (simStep (Command.move ["a", "x.jpg"] ["b", "y.jpg"])
        [["a", "x.jpg"], ["b"]]).2)
    ∧ ["c", "z.png"] ∉ (simStep (Command.remove ["c", "z.png"])
        [["c"], ["c", "z.png"]]).2 := by
  refine ⟨⟨?_, ?_⟩, ?_⟩
  · exact ((sim_command_semantics [["a", "x.jpg"], ["b"]] [] ["a", "x.jpg"]
      ["b", "y.jpg"] []).2.2.2.1 (by decide) (by decide) (by decide)
      ["b", "y.jpg"]).mpr (Or.inr rfl)
  · intro hmem
    have h := ((sim_command_semantics [["a", "x.jpg"], ["b"]] [] ["a", "x.jpg"]
      ["b", "y.jpg"] []).2.2.2.1 (by decide) (by decide) (by decide)
      ["a", "x.jpg"]).mp hmem
    rcases h with ⟨_, hne⟩ | hx
    · exact hne rfl
    · exact absurd hx (by decide)
  · intro hmem
    have h := ((sim_command_semantics [["c"], ["c", "z.png"]] [] [] []
      ["c", "z.png"]).2.2.2.2.2 (by decide) (by decide) (by decide)
      ["c", "z.png"]).mp hmem
    exact h.2 rfl

/-- C10: simulation is atomic per command on error — whenever a command's
simulate step raises, the simulacrum is exactly what it was before the step,
because every membership/suffix check precedes every mutation. -/
theorem sim_error_atomic (c : Command) (sim : List FsPath) (e : SimError)
    (h : (simStep c sim).1 = some e) : (simStep c sim).2 = sim := by
  cases c <;> simp only [simStep] at h ⊢ <;> split_ifs at h ⊢ <;> simp_all

/-- Witness for C10: a failing `MakeDirectory` (path already present) leaves
the concrete simulacrum untouched. -/
theorem sim_error_atomic_witness :
    (simStep (Command.makeDirectory ["d"]) [["d"], ["e"]]).2 = [["d"], ["e"]] :=
  sim_error_atomic (Command.makeDirectory ["d"]) [["d"], ["e"]] SimError.fileExists
    (by decide)

/-- C1: real execution is reached only after simulation of the entire command
list has succeeded.  For a non-empty command list, a simulation error makes
the run abort with that error and no command list is ever submitted for real
execution; any run that does execute had a fully successful simulation (and
was not in simulate-only mode); and in particular a plan containing a
`MoveFile` whose destination is already present in the simulated state at
that point is rejected before real execution. -/
theorem run_aborts_on_sim_failure (cmds : List Command) (sim0 : List FsPath) (so : Bool) :
    (cmds ≠ [] → ∀ e, simulateCmds cmds sim0 = Except.error e →
      runModel cmds sim0 so = RunOutcome.simFailed e
        ∧ ∀ l, runModel cmds sim0 so ≠ RunOutcome.executed l)
    ∧ (∀ l, runModel cmds sim0 so = RunOutcome.executed l →
        l = cmds ∧ so = false ∧ ∃ fin, simulateCmds cmds sim0 = Except.ok fin)
    ∧ (∀ pre src dst post sim1, cmds = pre ++ Command.move src dst :: post →
        simulateCmds pre sim0 = Except.ok sim1 → dst ∈ sim1 →
        ∀ l, runModel cmds sim0 so ≠ RunOutcome.executed l) := by
  refine ⟨?_, ?_, ?_⟩
  · intro hne e herr
    unfold runModel
    rw [if_neg hne, herr]
    exact ⟨rfl, by simp⟩
  · intro l hexec
    unfold runModel at hexec
    by_cases h1 : cmds = []
    · rw [if_pos h1] at hexec
      simp at hexec
    · rw [if_neg h1] at hexec
      cases hsim : simulateCmds cmds sim0 with
      | error e => rw [hsim] at hexec; simp at hexec
      | ok fin =>
        rw [hsim] at hexec
        cases so with
        | true => simp at hexec
        | false =>
          simp at hexec
          exact ⟨hexec.symm, rfl, fin, rfl⟩
  · intro pre src dst post sim1 hsplit hpre hdst l
    have hstep : ∃ e0, simStep (Command.move src dst) sim1 = (some e0, sim1) := by
      by_cases hsrc : src ∈ sim1
      · refine ⟨SimError.fileExists, ?_⟩
        simp only [simStep]
        rw [if_neg (not_not_intro hsrc), if_pos hdst]
      · refine ⟨SimError.fileNotFound, ?_⟩
        simp only [simStep]
        rw [if_pos hsrc]
    obtain ⟨e0, hstep⟩ := hstep
    have herr : simulateCmds cmds sim0 = Except.error e0 := by
      rw [hsplit, simulateCmds_append_ok pre sim0 sim1 _ hpre]
      simp only [simulateCmds, hstep]
    have hne : cmds ≠ [] := by
      rw [hsplit]
      simp
    unfold runModel
    rw [if_neg hne, herr]
    simp

/-- Witness for C1 at a concrete run: one `MoveFile` whose destination is
already present (and whose source is absent) makes the run abort rather than
execute. -/
theorem run_aborts_on_sim_failure_witness :
    runModel [Command.move ["x"] ["y"]] [["y"]] false ≠
      RunOutcome.executed [Command.move ["x"] ["y"]]
    ∧ runModel [Command.move ["x"] ["y"]] [["y"]] false =
        RunOutcome.simFailed SimError.fileNotFound := by
  constructor
  · exact (run_aborts_on_sim_failure [Command.move ["x"] ["y"]] [["y"]] false).2.2
      [] ["x"] ["y"] [] [["y"]] rfl rfl (by decide) [Command.move ["x"] ["y"]]
  · exact ((run_aborts_on_sim_failure [Command.move ["x"] ["y"]] [["y"]] false).1
      (by decide) SimError.fileNotFound (by rfl)).1

/-- ASCII lower-casing of one character, the case `str.lower()` performs on
the extension strings this program compares. -/
def lowerChar (c : Char) : Char :=
  if 65 ≤ c.toNat ∧ c.toNat ≤ 90 then Char.ofNat (c.toNat + 32) else c

/-- `str.lower()` restricted to ASCII. -/
def strToLower (s : String) : String := String.mk (s.toList.map lowerChar)

/-- `pathlib.PurePath.suffix` of a name: the last element of `suffixes`, or
`""` when there is none (equivalent to CPython's last-dot rule). -/
def pathSuffix (name : String) : String := (pathSuffixes name).getLastD ""

/-- `pathlib.PurePath.stem`: the name with its (final) suffix removed. -/
def pathStem (name : String) : String :=
  String.mk (name.toList.take (name.toList.length - (pathSuffix name).toList.length))

/-- `datetime.date(photo.datetime.year, photo.datetime.month, 1)`: the
month-of-capture key used to group photos (the day is always normalized to
1, so only year and month remain). -/
structure Month where
  year : Nat
  month : Nat
deriving DecidableEq, Repr

/-- The month key of a photo (line 337). -/
def Photo.month (p : Photo) : Month := ⟨p.dt.year, p.dt.month⟩

/-- `month.strftime("%Y-%m")` (with zero-padded 4-digit year). -/
def monthStr (m : Month) : String := pad 4 m.year ++ "-" ++ pad 2 m.month

/-- One file as the directory walk presents it: its name and everything
`Photo.__init__` reads from it. -/
structure FileData where
  name : String
  mtime : Dt
  isImage : Bool
  exif : List (String × String)
  size : Nat
  content : List Nat
deriving DecidableEq, Repr

/-- One immediate child of a directory listing. -/
inductive Entry where
  | dir (name : String)
  | file (data : FileData)
deriving DecidableEq, Repr

/-- `child.is_file() and child.suffix.lower() in self.extentions`. -/
def isPhotoFile (exts : List String) (name : String) : Bool :=
  decide (strToLower (pathSuffix name) ∈ exts)

/-- The directory scan of `Organizer.prepare` (lines 324-338 and 350-351):
split a listing into subdirectory names and the files whose lower-cased
suffix is a configured extension, in listing order. -/
def scanRoot (exts : List String) : List Entry → List String × List FileData
  | [] => ([], [])
  | Entry.dir n :: rest =>
    let r := scanRoot exts rest
    (n :: r.1, r.2)
  | Entry.file fd :: rest =>
    let r := scanRoot exts rest
    if isPhotoFile exts fd.name then (r.1, fd :: r.2) else r

/-- `Photo(child)`: capture-time resolution from the file's stem, mtime and
EXIF data; identity from its path under `parent`. -/
def mkPhoto (parent : FsPath) (fd : FileData) : Photo :=
  let r := photoInit ⟨pathStem fd.name, fd.mtime, fd.isImage, fd.exif⟩
  ⟨parent ++ [fd.name], r.1, r.2, fd.size, fd.content⟩

/-- The `datetime_uncertain` consultation (lines 334-336 and 354-356): a
photo whose source is not EXIF is offered to the decision provider, which
either keeps it (`none`) or overrides its timestamp (`some d`, source
`user`).  The provider's abort outcome, which terminates the whole process,
is outside this planning model. -/
def applyUncertain (uAns : Photo → Option Dt) (p : Photo) : Photo :=
  if p.src = Source.exif then p
  else
    match uAns p with
    | none => p
    | some d => { p with dt := d, src := Source.user }

/-- `disorganized_photos.setdefault(photo_month, list()).append(photo)`:
append to the month's list, creating the month at the end on first sight
(Python dicts preserve insertion order). -/
def groupInsert (m : Month) (p : Photo) : List (Month × List Photo) → List (Month × List Photo)
  | [] => [(m, [p])]
  | (m', ps) :: rest =>
    if m' = m then (m', ps ++ [p]) :: rest
    else (m', ps) :: groupInsert m p rest

/-- Grouping of the disorganized photos by capture month (lines 337-338). -/
def groupByMonth (ps : List Photo) : List (Month × List Photo) :=
  ps.foldl (fun acc p => groupInsert (Photo.month p) p acc) []

/-- The existing-directory check of `Organizer.prepare` (lines 342-357): for
each month of disorganized photos, either plan a `MakeDirectory` for the
missing `YYYY-MM` directory, or scan the existing directory's photo files
into that month's already-organized pool (prompting uncertain ones). -/
def dirPhase (path : FsPath) (exts : List String) (uAns : Photo → Option Dt)
    (dirs : List FsPath) (monthIter : String → List Entry) :
    List Month → List Command × List (Month × List Photo)
  | [] => ([], [])
  | m :: rest =>
    let ms := monthStr m
    let r := dirPhase path exts uAns dirs monthIter rest
    if path ++ [ms] ∉ dirs then
      (Command.makeDirectory (path ++ [ms]) :: r.1, (m, []) :: r.2)
    else
      let photos := (scanRoot exts (monthIter ms)).2.map
        (fun fd => applyUncertain uAns (mkPhoto (path ++ [ms]) fd))
      (r.1, (m, photos) :: r.2)

/-- `photo.is_duplicate_of(other)` inside the planner, where every record's
hash cache starts the run empty, so the digest equals the hash function
applied to the content (theorem `get_hash_caches`). -/
def isDupPure (hashFn : String → List Nat → String) (alg : String) (a b : Photo) : Bool :=
  decide (a.size = b.size) && decide (hashFn alg a.content = hashFn alg b.content)

/-- The first element of `pool` against which `photo` tests as a duplicate —
each `for ... break` loop of lines 367-374 and 377-384. -/
def findDup (hashFn : String → List Nat → String) (alg : String) (p : Photo) :
    List Photo → Option Photo
  | [] => none
  | q :: rest => if isDupPure hashFn alg p q then some q else findDup hashFn alg p rest

/-- A `duplicate_found` answer: keep the duplicate on disk, or delete it
(the provider's abort outcome terminates the whole process and is outside
this planning model). -/
inductive DupAnswer where
  | keep
  | delete
deriving DecidableEq, Repr

/-- What the duplicate scan of one month produces: the `duplicate_found`
prompts issued (original, duplicate) in order, the `Remove` commands
appended, and the unique survivors. -/
structure DedupResult where
  prompts : List (Photo × Photo)
  removes : List Command
  unique : List Photo
deriving DecidableEq, Repr

/-- The `duplicate_found` prompt issued for one loop's match outcome
(lines 369/371 and 379/381): `(original, duplicate)` when there is a match,
nothing otherwise. -/
def promptsOf (m : Option Photo) (p : Photo) : List (Photo × Photo) :=
  (m.map (fun o => (o, p))).toList

/-- The `Remove` command appended for one loop's match outcome
(lines 371-373 and 381-383): present when there is a match and the decision
provider answers delete. -/
def removeOf (dAns : Photo → Photo → DupAnswer) (m : Option Photo) (p : Photo) :
    List Command :=
  match m with
  | some o => if dAns o p = DupAnswer.delete then [Command.remove p.path] else []
  | none => []

/-- The per-month duplicate scan (lines 362-387), with `prefixPhotos`
accumulating `photos_for_month[:i]`: each photo is checked first against the
month's organized pool (first match wins within it), then — with no guard on
the first outcome — against the earlier-listed disorganized photos (first
match wins within them); each match prompts and, on a delete answer,
appends a `Remove`; the photo joins the unique list iff neither loop
matched. -/
def dedupMonth (hashFn : String → List Nat → String) (alg : String)
    (dAns : Photo → Photo → DupAnswer) (organized : List Photo) :
    List Photo → List Photo → DedupResult
  | _prefixPhotos, [] => ⟨[], [], []⟩
  | prefixPhotos, p :: rest =>
    let m1 := findDup hashFn alg p organized
    let m2 := findDup hashFn alg p prefixPhotos
    let isDup := m1.isSome || m2.isSome
    let r := dedupMonth hashFn alg dAns organized (prefixPhotos ++ [p]) rest
    ⟨promptsOf m1 p ++ promptsOf m2 p ++ r.prompts,
      removeOf dAns m1 p ++ removeOf dAns m2 p ++ r.removes,
      (if isDup then [] else [p]) ++ r.unique⟩

/-- The duplicate scan over all months (lines 360-387): months in insertion
order, each against its organized pool; only months with at least one
unique photo get an entry in the unique map (`setdefault` on first unique
photo). -/
def dedupPhase (hashFn : String → List Nat → String) (alg : String)
    (dAns : Photo → Photo → DupAnswer) (organized : List (Month × List Photo)) :
    List (Month × List Photo) → List (Photo × Photo) × List Command × List (Month × List Photo)
  | [] => ([], [], [])
  | (m, ps) :: rest =>
    let r := dedupMonth hashFn alg dAns ((organized.lookup m).getD []) [] ps
    let r' := dedupPhase hashFn alg dAns organized rest
    (r.prompts ++ r'.1, r.removes ++ r'.2.1,
      (if r.unique = [] then [] else [(m, r.unique)]) ++ r'.2.2)

/-- Stable insertion into an ascending list: the new element goes after all
existing elements it is not strictly below. -/
def insertSorted (p : Photo) : List Photo → List Photo
  | [] => [p]
  | q :: rest => if Photo.lt p q then p :: q :: rest else q :: insertSorted p rest

/-- `unique_photos[month].sort()`: Python's stable ascending sort by
`Photo.__lt__`, modelled as a left-fold stable insertion sort (any stable
sort computes the same list, since `Photo.lt` is a strict weak order —
theorem `photo_order_strict_weak`). -/
def sortPhotos (l : List Photo) : List Photo :=
  l.foldl (fun acc p => insertSorted p acc) []

/-- The merge-and-sort step (lines 390-392): extend each unique month with
its organized pool, then sort. -/
def mergeSortPhase (organized : List (Month × List Photo)) :
    List (Month × List Photo) → List (Month × List Photo)
  | [] => []
  | (m, uniq) :: rest =>
    (m, sortPhotos (uniq ++ (organized.lookup m).getD [])) :: mergeSortPhase organized rest

/-- The sequence-number counter of lines 398-408 in isolation, walking the
formatted timestamps with the running `(last_datetime_formatted, n)` state:
an equal formatted timestamp increments `n`, a different one resets it to 1
and replaces `last`. -/
def seqNumsGo (lastFmt : String) (n : Nat) : List String → List Nat
  | [] => []
  | f :: rest =>
    if lastFmt = f then (n + 1) :: seqNumsGo lastFmt (n + 1) rest
    else 1 :: seqNumsGo f 1 rest

/-- The sequence numbers a month's walked list receives, starting from the
sentinel state `last = datetime.min`, `n = 1` (lines 398-399). -/
def seqNums (fmts : List String) : List Nat :=
  seqNumsGo Dt.minDt.isoformat 1 fmts

/-- The per-month move-planning loop (lines 398-414): walk the sorted
photos with the `(last, n)` counter state; each photo's destination is
`path/YYYY-MM/<formatted> <n:03><suffix>`; emit `Move(photo.path, dest)`
unless the destination already equals the photo's path. -/
def moveGo (path : FsPath) (ms : String) (lastFmt : String) (n : Nat) :
    List Photo → List Command
  | [] => []
  | p :: rest =>
    let fmt := p.dt.isoformat
    let n' := if lastFmt = fmt then n + 1 else 1
    let last' := if lastFmt = fmt then lastFmt else fmt
    let dest : FsPath := path ++ [ms, fmt ++ " " ++ pad 3 n' ++ pathSuffix (pathName p.path)]
    let tailCmds := moveGo path ms last' n' rest
    if dest = p.path then tailCmds else Command.move p.path dest :: tailCmds

/-- The move-planning phase over all unique months (lines 395-414). -/
def movePhase (path : FsPath) : List (Month × List Photo) → List Command
  | [] => []
  | (m, ps) :: rest =>
    moveGo path (monthStr m) Dt.minDt.isoformat 1 ps ++ movePhase path rest

/-- `Organizer.prepare` (lines 320-416) end to end, over the root listing
`rootEntries` and the month-directory listings `monthIter`: scan, group by
month, plan directory creation / collect organized pools, scan for
duplicates (collecting prompts and `Remove` commands), merge-and-sort, and
plan moves.  Returns the planned command list — `MakeDirectory` commands,
then `Remove` commands, then `Move` commands, in the source's append
order — together with the duplicate prompts issued. -/
def prepare (hashFn : String → List Nat → String) (alg : String)
    (uAns : Photo → Option Dt) (dAns : Photo → Photo → DupAnswer)
    (exts : List String) (path : FsPath)
    (rootEntries : List Entry) (monthIter : String → List Entry) :
    List Command × List (Photo × Photo) :=
  let scanned := scanRoot exts rootEntries
  let dirs := scanned.1.map (fun n => path ++ [n])
  let disPhotos := scanned.2.map (fun fd => applyUncertain uAns (mkPhoto path fd))
  let grouped := groupByMonth disPhotos
  let dp := dirPhase path exts uAns dirs monthIter (grouped.map Prod.fst)
  let dd := dedupPhase hashFn alg dAns dp.2 grouped
  let sorted := mergeSortPhase dp.2 dd.2.2
  (dp.1 ++ dd.2.1 ++ movePhase path sorted, dd.1)

/-- Placeholder record for out-of-range `getD` accesses (never reached). -/
def photoD : Photo := ⟨[], ⟨1, 1, 1, 0, 0, 0⟩, Source.mtime, 0, []⟩

theorem promptsOf_pair (m1 m2 : Option Photo) (p : Photo) (t : List (Photo × Photo)) :
    promptsOf m1 p ++ (promptsOf m2 p ++ t) =
      (m1.toList ++ m2.toList).map (fun o => (o, p)) ++ t := by
  cases m1 <;> cases m2 <;> rfl

theorem removeOf_pair (dAns : Photo → Photo → DupAnswer) (m1 m2 : Option Photo) (p : Photo)
    (t : List Command) :
    removeOf dAns m1 p ++ (removeOf dAns m2 p ++ t) =
      (m1.toList ++ m2.toList).filterMap
        (fun o => if dAns o p = DupAnswer.delete then some (Command.remove p.path)
          else none) ++ t := by
  cases m1 with
  | none =>
    cases m2 with
    | none => rfl
    | some o =>
      simp only [removeOf, Option.toList, List.nil_append, List.filterMap_cons,
        List.filterMap_nil]
      split_ifs <;> rfl
  | some o1 =>
    cases m2 with
    | none =>
      simp only [removeOf, Option.toList, List.append_nil, List.nil_append,
        List.filterMap_cons, List.filterMap_nil]
      split_ifs <;> rfl
    | some o2 =>
      simp only [removeOf, Option.toList, List.cons_append, List.nil_append,
        List.filterMap_cons, List.filterMap_nil]
      split_ifs <;> rfl

theorem uniqueOf_pair (m1 m2 : Option Photo) (p : Photo) :
    (if (m1.isSome || m2.isSome) = true then ([] : List Photo) else [p]) =
      if m1 = none ∧ m2 = none then [p] else [] := by
  cases m1 <;> cases m2 <;> simp

theorem dedupMonth_eq_flatMap (f : String → List Nat → String) (alg : String)
    (dAns : Photo → Photo → DupAnswer) (org : List Photo) :
    ∀ (photos pre : List Photo),
      dedupMonth f alg dAns org pre photos =
        ⟨(List.range photos.length).flatMap (fun i =>
            ((findDup f alg (photos.getD i photoD) org).toList ++
              (findDup f alg (photos.getD i photoD) (pre ++ photos.take i)).toList).map
              (fun o => (o, photos.getD i photoD))),
          (List.range photos.length).flatMap (fun i =>
            ((findDup f alg (photos.getD i photoD) org).toList ++
              (findDup f alg (photos.getD i photoD) (pre ++ photos.take i)).toList).filterMap
              (fun o => if dAns o (photos.getD i photoD) = DupAnswer.delete
                then some (Command.remove (photos.getD i photoD).path) else none)),
          (List.range photos.length).flatMap (fun i =>
            if findDup f alg (photos.getD i photoD) org = none ∧
                findDup f alg (photos.getD i photoD) (pre ++ photos.take i) = none
            then [photos.getD i photoD] else [])⟩ := by
  intro photos
  induction photos with
  | nil => intro pre; rfl
  | cons p rest ih =>
    intro pre
    simp only [dedupMonth, ih (pre ++ [p]), List.length_cons, List.range_succ_eq_map,
      List.flatMap_cons, List.flatMap_map, Function.comp, List.getD_cons_zero,
      List.getD_cons_succ, List.take_succ_cons, List.take_zero, List.append_nil,
      List.append_assoc, List.cons_append, List.nil_append, List.singleton_append]
    rw [promptsOf_pair, removeOf_pair, uniqueOf_pair]

theorem findDup_none_iff (f : String → List Nat → String) (alg : String) (p : Photo) :
    ∀ pool, findDup f alg p pool = none ↔ ∀ q ∈ pool, isDupPure f alg p q = false := by
  intro pool
  induction pool with
  | nil => simp [findDup]
  | cons q rest ih =>
    simp only [findDup]
    by_cases h : isDupPure f alg p q = true
    · simp [h]
    · rw [if_neg h]
      simp only [Bool.not_eq_true] at h
      simp [ih, h]

theorem findDup_some_iff (f : String → List Nat → String) (alg : String) (p : Photo) :
    ∀ pool o, findDup f alg p pool = some o ↔
      ∃ l1 l2, pool = l1 ++ o :: l2 ∧ isDupPure f alg p o = true ∧
        ∀ q ∈ l1, isDupPure f alg p q = false := by
  intro pool
  induction pool with
  | nil =>
    intro o
    simp [findDup]
  | cons q rest ih =>
    intro o
    simp only [findDup]
    by_cases h : isDupPure f alg p q = true
    · rw [if_pos h]
      constructor
      · intro ho
        have hqo : q = o := Option.some.inj ho
        subst hqo
        exact ⟨[], rest, rfl, h, by simp⟩
      · rintro ⟨l1, l2, hsplit, hdup, hall⟩
        cases l1 with
        | nil =>
          simp only [List.nil_append, List.cons.injEq] at hsplit
          rw [hsplit.1]
        | cons q' l1' =>
          simp only [List.cons_append, List.cons.injEq] at hsplit
          have hf := hall q' (by simp)
          rw [← hsplit.1] at hf
          rw [h] at hf
          exact absurd hf (by simp)
    · rw [if_neg h]
      simp only [Bool.not_eq_true] at h
      rw [ih o]
      constructor
      · rintro ⟨l1, l2, hsplit, hdup, hall⟩
        refine ⟨q :: l1, l2, by simp [hsplit], hdup, ?_⟩
        intro x hx
        rcases List.mem_cons.mp hx with hxq | hxl
        · rw [hxq]
          exact h
        · exact hall x hxl
      · rintro ⟨l1, l2, hsplit, hdup, hall⟩
        cases l1 with
        | nil =>
          simp only [List.nil_append, List.cons.injEq] at hsplit
          rw [hsplit.1] at h
          rw [hdup] at h
          exact absurd h (by simp)
        | cons q' l1' =>
          simp only [List.cons_append, List.cons.injEq] at hsplit
          refine ⟨l1', l2, hsplit.2, hdup, ?_⟩
          intro x hx
          exact hall x (by simp [hx])

/-- Organized-pool record for the C3 counterexample: an already-organized
photo in the month directory. -/
def cexOrg : Photo :=
  ⟨["r", "2023-05", "x.jpg"], ⟨2023, 5, 1, 10, 0, 0⟩, Source.exif, 1, [7]⟩

/-- First-discovered disorganized photo for the C3 counterexample; sorts
later than `cexA` (later capture time). -/
def cexB : Photo := ⟨["r", "b.jpg"], ⟨2023, 5, 1, 10, 0, 0⟩, Source.exif, 1, [7]⟩

/-- Second-discovered disorganized photo for the C3 counterexample; sorts
earlier than `cexB` (earlier capture time). -/
def cexA : Photo := ⟨["r", "a.jpg"], ⟨2023, 5, 1, 9, 0, 0⟩, Source.exif, 1, [7]⟩

/-- C3 counterexample: with one organized photo and discovery order
`[cexB, cexA]`, all byte-identical, the record `cexA` — which already
matched the organized pool — is checked and prompted a second time against
`cexB`, a record that is neither in the organized pool nor earlier in the
§4.2 order (`cexA` sorts before `cexB`), and a second identical `DeleteFile`
for `cexA` is emitted.  This falsifies the claim's "stopping at the first
match found in that priority order", its "not additionally checked (and not
prompted again)", and its "sort earlier than it by the §4.2 ordering". -/
theorem duplicate_scan_counterexample :
    (dedupMonth (fun _ _ => "h") "sha256" (fun _ _ => DupAnswer.delete)
        [cexOrg] [] [cexB, cexA]).prompts = [(cexOrg, cexB), (cexOrg, cexA), (cexB, cexA)]
    ∧ (dedupMonth (fun _ _ => "h") "sha256" (fun _ _ => DupAnswer.delete)
        [cexOrg] [] [cexB, cexA]).removes =
      [Command.remove ["r", "b.jpg"], Command.remove ["r", "a.jpg"],
        Command.remove ["r", "a.jpg"]]
    ∧ Photo.lt cexA cexB = true
    ∧ Photo.lt cexB cexA = false
    ∧ cexB ∉ [cexOrg] := by
  refine ⟨by decide, by decide, by decide, by decide, by decide⟩

/-- C3 amended: for every disorganized record, duplicate detection runs
first against the month's organized pool (stopping at that pool's first
match) and then — regardless of whether the organized pool already
matched — against the disorganized records that appear earlier in the
month's discovery list (stopping at that list's first match); each match
produces its own prompt (so a record that matched in the organized pool can
be prompted again) and, on a delete answer, its own `DeleteFile`; a record
joins the month's unique set iff neither check found a match.  Each of the
two `for ... break` loops returns the first match of its pool. -/
theorem duplicate_scan_structure (f : String → List Nat → String) (alg : String)
    (dAns : Photo → Photo → DupAnswer) (org photos : List Photo) :
    ((dedupMonth f alg dAns org [] photos).prompts =
      (List.range photos.length).flatMap (fun i =>
        ((findDup f alg (photos.getD i photoD) org).toList ++
          (findDup f alg (photos.getD i photoD) (photos.take i)).toList).map
          (fun o => (o, photos.getD i photoD))))
    ∧ ((dedupMonth f alg dAns org [] photos).removes =
      (List.range photos.length).flatMap (fun i =>
        ((findDup f alg (photos.getD i photoD) org).toList ++
          (findDup f alg (photos.getD i photoD) (photos.take i)).toList).filterMap
          (fun o => if dAns o (photos.getD i photoD) = DupAnswer.delete
            then some (Command.remove (photos.getD i photoD).path) else none)))
    ∧ ((dedupMonth f alg dAns org [] photos).unique =
      (List.range photos.length).flatMap (fun i =>
        if findDup f alg (photos.getD i photoD) org = none ∧
            findDup f alg (photos.getD i photoD) (photos.take i) = none
        then [photos.getD i photoD] else []))
    ∧ (∀ p pool, findDup f alg p pool = none ↔ ∀ q ∈ pool, isDupPure f alg p q = false)
    ∧ (∀ p pool o, findDup f alg p pool = some o ↔
        ∃ l1 l2, pool = l1 ++ o :: l2 ∧ isDupPure f alg p o = true ∧
          ∀ q ∈ l1, isDupPure f alg p q = false) := by
  have h := dedupMonth_eq_flatMap f alg dAns org photos []
  rw [h]
  exact ⟨by simp, by simp, by simp, findDup_none_iff f alg, findDup_some_iff f alg⟩

/-- Witness for C3's amended theorem at a concrete month: rewriting by the
theorem and evaluating gives the concrete unique set. -/
theorem duplicate_scan_structure_witness :
    (dedupMonth (fun _ _ => "h") "sha256" (fun _ _ => DupAnswer.keep)
        [] [] [cexB, cexA]).unique = [cexB] := by
  rw [(duplicate_scan_structure (fun _ _ => "h") "sha256" (fun _ _ => DupAnswer.keep)
    [] [cexB, cexA]).2.2.1]
  decide

theorem seqNumsGo_cons (last : String) (n : Nat) (f : String) (rest : List String) :
    seqNumsGo last n (f :: rest) =
      (if last = f then n + 1 else 1) :: seqNumsGo f (if last = f then n + 1 else 1) rest := by
  by_cases h : last = f
  · subst h
    simp [seqNumsGo]
  · simp [seqNumsGo, h]

theorem seqNumsGo_length : ∀ (l : List String) (last : String) (n : Nat),
    (seqNumsGo last n l).length = l.length := by
  intro l
  induction l with
  | nil => intro last n; rfl
  | cons f rest ih =>
    intro last n
    rw [seqNumsGo_cons]
    simp [ih]

theorem seqNumsGo_getD : ∀ (l : List String) (last : String) (n i : Nat),
    i + 1 < l.length →
    (seqNumsGo last n l).getD (i + 1) 0 =
      if l.getD (i + 1) "" = l.getD i "" then (seqNumsGo last n l).getD i 0 + 1
      else 1 := by
  intro l
  induction l with
  | nil =>
    intro last n i h
    simp at h
  | cons f rest ih =>
    intro last n i h
    rw [seqNumsGo_cons]
    cases i with
    | zero =>
      cases rest with
      | nil => simp at h
      | cons g rest' =>
        rw [seqNumsGo_cons]
        simp only [List.getD_cons_succ, List.getD_cons_zero]
        by_cases hfg : f = g
        · simp [hfg]
        · rw [if_neg hfg, if_neg (fun hc => hfg hc.symm)]
    | succ j =>
      simp only [List.getD_cons_succ]
      exact ih f _ j (by simpa using h)

theorem moveGo_eq_zip (path : FsPath) (ms : String) :
    ∀ (ps : List Photo) (last : String) (n : Nat),
      moveGo path ms last n ps =
        (ps.zip (seqNumsGo last n (ps.map (fun p => p.dt.isoformat)))).filterMap
          (fun pr =>
            if path ++ [ms, pr.1.dt.isoformat ++ " " ++ pad 3 pr.2 ++
                pathSuffix (pathName pr.1.path)] = pr.1.path
            then none
            else some (Command.move pr.1.path
              (path ++ [ms, pr.1.dt.isoformat ++ " " ++ pad 3 pr.2 ++
                pathSuffix (pathName pr.1.path)]))) := by
  intro ps
  induction ps with
  | nil => intro last n; rfl
  | cons p rest ih =>
    intro last n
    by_cases h : last = p.dt.isoformat
    · subst h
      simp only [moveGo, List.map_cons, seqNumsGo_cons, if_pos rfl, List.zip_cons_cons,
        List.filterMap_cons]
      rw [ih]
      split_ifs <;> simp_all
    · simp only [moveGo, List.map_cons, seqNumsGo_cons, if_neg h, List.zip_cons_cons,
        List.filterMap_cons]
      rw [ih]
      split_ifs <;> simp_all

/-- Sentinel-timestamp photo (month 0001-01) for the C6 counterexample. -/
def seqP1 : Photo := ⟨["r", "a.jpg"], ⟨1, 1, 1, 0, 0, 0⟩, Source.filename, 1, []⟩

/-- Second sentinel-timestamp photo for the C6 counterexample. -/
def seqP2 : Photo := ⟨["r", "b.jpg"], ⟨1, 1, 1, 0, 0, 0⟩, Source.filename, 1, []⟩

/-- Third sentinel-timestamp photo for the C6 counterexample. -/
def seqP3 : Photo := ⟨["r", "c.jpg"], ⟨1, 1, 1, 0, 0, 0⟩, Source.filename, 1, []⟩

/-- Same-month photo with a different timestamp for the C6 counterexample. -/
def seqP4 : Photo := ⟨["r", "d.jpg"], ⟨1, 1, 2, 0, 0, 0⟩, Source.filename, 1, []⟩

/-- C6 counterexample: a month whose formatted timestamps are `[T, T, T, U]`
with `T ≠ U` receives sequence numbers `[002, 003, 004, 001]`, not
`[001, 002, 003, 001]`, when `T` equals the formatted sentinel
`datetime.min` (`"0001-01-01 00:00:00"`, reachable e.g. from a filename
`"0001-01-01 00:00:00 001.jpg"`): the initial `last_datetime_formatted`
sentinel compares equal to the first record's timestamp, so counting starts
at 2. -/
theorem seq_numbers_counterexample :
    seqP1.dt.isoformat = seqP2.dt.isoformat
    ∧ seqP2.dt.isoformat = seqP3.dt.isoformat
    ∧ seqP3.dt.isoformat ≠ seqP4.dt.isoformat
    ∧ seqNums [seqP1.dt.isoformat, seqP2.dt.isoformat, seqP3.dt.isoformat,
        seqP4.dt.isoformat] = [2, 3, 4, 1]
    ∧ seqNums [seqP1.dt.isoformat, seqP2.dt.isoformat, seqP3.dt.isoformat,
        seqP4.dt.isoformat] ≠ [1, 2, 3, 1]
    ∧ movePhase ["r"] [(⟨1, 1⟩, [seqP1, seqP2, seqP3, seqP4])] =
        [Command.move ["r", "a.jpg"] ["r", "0001-01", "0001-01-01 00:00:00 002.jpg"],
          Command.move ["r", "b.jpg"] ["r", "0001-01", "0001-01-01 00:00:00 003.jpg"],
          Command.move ["r", "c.jpg"] ["r", "0001-01", "0001-01-01 00:00:00 004.jpg"],
          Command.move ["r", "d.jpg"] ["r", "0001-01", "0001-01-02 00:00:00 001.jpg"]] := by
  refine ⟨by decide, by decide, by decide, by decide, by decide, by decide⟩

/-- C6 amended: walking a month's sorted record list, the sequence number is
determined by the `(last, n)` counter seeded with the formatted
`datetime.min` sentinel: at every position after the first it increments by
1 when the formatted timestamp equals the previous record's and resets to 1
when it differs; the first record receives 1 unless its formatted timestamp
equals the sentinel `"0001-01-01 00:00:00"`, in which case it receives 2; in
particular `[T, T, T, U]` receives `[001, 002, 003, 001]` whenever `T ≠ U`
and `T` is not the sentinel string.  The move-planning walk consumes exactly
these numbers (zipping each photo with its sequence number). -/
theorem seq_assignment :
    (∀ fmts : List String, (seqNums fmts).length = fmts.length)
    ∧ (∀ (fmts : List String) (i : Nat), i + 1 < fmts.length →
        (seqNums fmts).getD (i + 1) 0 =
          if fmts.getD (i + 1) "" = fmts.getD i "" then (seqNums fmts).getD i 0 + 1
          else 1)
    ∧ (∀ (f : String) (rest : List String),
        (seqNums (f :: rest)).getD 0 0 = if f = Dt.minDt.isoformat then 2 else 1)
    ∧ (∀ T U : String, T ≠ U → T ≠ Dt.minDt.isoformat →
        seqNums [T, T, T, U] = [1, 2, 3, 1])
    ∧ (∀ (path : FsPath) (ms : String) (ps : List Photo),
        moveGo path ms Dt.minDt.isoformat 1 ps =
          (ps.zip (seqNums (ps.map (fun p => p.dt.isoformat)))).filterMap
            (fun pr =>
              if path ++ [ms, pr.1.dt.isoformat ++ " " ++ pad 3 pr.2 ++
                  pathSuffix (pathName pr.1.path)] = pr.1.path
              then none
              else some (Command.move pr.1.path
                (path ++ [ms, pr.1.dt.isoformat ++ " " ++ pad 3 pr.2 ++
                  pathSuffix (pathName pr.1.path)])))) := by
  refine ⟨?_, ?_, ?_, ?_, ?_⟩
  · intro fmts
    exact seqNumsGo_length fmts _ _
  · intro fmts i h
    exact seqNumsGo_getD fmts _ _ i h
  · intro f rest
    rw [seqNums, seqNumsGo_cons]
    by_cases h : Dt.minDt.isoformat = f
    · rw [if_pos h, if_pos h.symm]
      rfl
    · rw [if_neg h, if_neg (fun hc => h hc.symm)]
      rfl
  · intro T U hTU hTs
    have h1 : Dt.minDt.isoformat ≠ T := fun hc => hTs hc.symm
    simp only [seqNums, seqNumsGo_cons, seqNumsGo, if_neg h1, if_pos rfl, if_neg hTU]
    norm_num
  · intro path ms ps
    exact moveGo_eq_zip path ms ps _ _

/-- Witness for C6's amended theorem: the `[T, T, T, U]` rule applied at
concrete non-sentinel timestamps. -/
theorem seq_assignment_witness :
    seqNums ["2023-05-01 10:00:00", "2023-05-01 10:00:00", "2023-05-01 10:00:00",
      "2023-06-02 11:00:00"] = [1, 2, 3, 1] :=
  seq_assignment.2.2.2.1 "2023-05-01 10:00:00" "2023-06-02 11:00:00"
    (by decide) (by decide)

theorem dirPhase_mkdir_only (path : FsPath) (exts : List String) (uAns : Photo → Option Dt)
    (dirs : List FsPath) (monthIter : String → List Entry) :
    ∀ (months : List Month) (cmd : Command),
      cmd ∈ (dirPhase path exts uAns dirs monthIter months).1 →
      ∃ d, cmd = Command.makeDirectory d := by
  intro months
  induction months with
  | nil =>
    intro cmd h
    simp [dirPhase] at h
  | cons m rest ih =>
    intro cmd h
    simp only [dirPhase] at h
    split_ifs at h with hd <;> dsimp only at h
    · exact ih cmd h
    · rcases List.mem_cons.mp h with hc | hc
      · exact ⟨path ++ [monthStr m], hc⟩
      · exact ih cmd hc

theorem removeOf_remove_only (dAns : Photo → Photo → DupAnswer) (m : Option Photo)
    (p : Photo) (cmd : Command) (h : cmd ∈ removeOf dAns m p) :
    ∃ t, cmd = Command.remove t := by
  cases m with
  | none => simp [removeOf] at h
  | some o =>
    simp only [removeOf] at h
    split_ifs at h
    · exact ⟨p.path, List.mem_singleton.mp h⟩
    · simp at h

theorem dedupMonth_remove_only (f : String → List Nat → String) (alg : String)
    (dAns : Photo → Photo → DupAnswer) (org : List Photo) :
    ∀ (photos pre : List Photo) (cmd : Command),
      cmd ∈ (dedupMonth f alg dAns org pre photos).removes →
      ∃ t, cmd = Command.remove t := by
  intro photos
  induction photos with
  | nil =>
    intro pre cmd h
    simp [dedupMonth] at h
  | cons p rest ih =>
    intro pre cmd h
    simp only [dedupMonth, List.mem_append] at h
    rcases h with (h | h) | h
    · exact removeOf_remove_only _ _ _ _ h
    · exact removeOf_remove_only _ _ _ _ h
    · exact ih (pre ++ [p]) cmd h

theorem dedupPhase_remove_only (f : String → List Nat → String) (alg : String)
    (dAns : Photo → Photo → DupAnswer) (org : List (Month × List Photo)) :
    ∀ (groups : List (Month × List Photo)) (cmd : Command),
      cmd ∈ (dedupPhase f alg dAns org groups).2.1 →
      ∃ t, cmd = Command.remove t := by
  intro groups
  induction groups with
  | nil =>
    intro cmd h
    simp [dedupPhase] at h
  | cons g rest ih =>
    intro cmd h
    simp only [dedupPhase, List.mem_append] at h
    rcases h with h | h
    · exact dedupMonth_remove_only f alg dAns _ g.2 [] cmd h
    · exact ih cmd h

theorem moveGo_ne (path : FsPath) (ms : String) :
    ∀ (ps : List Photo) (last : String) (n : Nat) (src dst : FsPath),
      Command.move src dst ∈ moveGo path ms last n ps → dst ≠ src := by
  intro ps
  induction ps with
  | nil =>
    intro last n src dst h
    simp [moveGo] at h
  | cons p rest ih =>
    intro last n src dst h
    simp only [moveGo] at h
    by_cases hD : path ++ [ms, p.dt.isoformat ++ " " ++
        pad 3 (if last = p.dt.isoformat then n + 1 else 1) ++
        pathSuffix (pathName p.path)] = p.path
    · rw [if_pos hD] at h
      exact ih _ _ src dst h
    · rw [if_neg hD] at h
      rcases List.mem_cons.mp h with hc | hc
      · obtain ⟨h1, h2⟩ := (Command.move.injEq _ _ _ _).mp hc
        rw [h1, h2]
        exact fun hc2 => hD hc2
      · exact ih _ _ src dst hc

theorem movePhase_ne (path : FsPath) :
    ∀ (groups : List (Month × List Photo)) (src dst : FsPath),
      Command.move src dst ∈ movePhase path groups → dst ≠ src := by
  intro groups
  induction groups with
  | nil =>
    intro src dst h
    simp [movePhase] at h
  | cons g rest ih =>
    intro src dst h
    simp only [movePhase, List.mem_append] at h
    rcases h with h | h
    · exact moveGo_ne path (monthStr g.1) g.2 _ _ src dst h
    · exact ih src dst h

/-- C9: planning is idempotent on an organized directory.  When the target
directory contains no disorganized photo files (which is what "already fully
organized" means for the root listing — every photo record then lives inside
a month directory), the planner emits zero commands; and, over all inputs,
no `MoveFile` command is ever emitted whose destination equals the moved
record's current path. -/
theorem planner_idempotent (hashFn : String → List Nat → String) (alg : String)
    (uAns : Photo → Option Dt) (dAns : Photo → Photo → DupAnswer)
    (exts : List String) (path : FsPath) (rootEntries : List Entry)
    (monthIter : String → List Entry) :
    ((scanRoot exts rootEntries).2 = [] →
      (prepare hashFn alg uAns dAns exts path rootEntries monthIter).1 = [])
    ∧ (∀ src dst, Command.move src dst ∈
        (prepare hashFn alg uAns dAns exts path rootEntries monthIter).1 →
        dst ≠ src) := by
  constructor
  · intro h
    simp [prepare, h, groupByMonth, dirPhase, dedupPhase, mergeSortPhase, movePhase]
  · intro src dst h
    simp only [prepare, List.mem_append] at h
    rcases h with (h | h) | h
    · obtain ⟨d, hd⟩ := dirPhase_mkdir_only path exts uAns _ monthIter _ _ h
      exact absurd hd (by simp)
    · obtain ⟨t, ht⟩ := dedupPhase_remove_only hashFn alg dAns _ _ _ h
      exact absurd ht (by simp)
    · exact movePhase_ne path _ src dst h

/-- Witness for C9 at a concrete organized directory (a month directory with
one correctly named photo, no stray files in the root): zero commands. -/
theorem planner_idempotent_witness :
    (prepare (fun _ _ => "h") "sha256" (fun _ => none) (fun _ _ => DupAnswer.keep)
      [".jpg"] ["r"] [Entry.dir "2023-05"]
      (fun _ => [Entry.file ⟨"2023-05-01 10:00:00 001.jpg", ⟨2020, 1, 1, 0, 0, 0⟩,
        false, [], 7, [1]⟩])).1 = [] :=
  (planner_idempotent (fun _ _ => "h") "sha256" (fun _ => none) (fun _ _ => DupAnswer.keep)
    [".jpg"] ["r"] [Entry.dir "2023-05"]
    (fun _ => [Entry.file ⟨"2023-05-01 10:00:00 001.jpg", ⟨2020, 1, 1, 0, 0, 0⟩,
      false, [], 7, [1]⟩])).1 (by decide)

end Photorganize
